import Mathlib

/-!
Shallow embedding of the Scrypt tokenizer and infix parser
(src/lib/infixParser.cpp: class InfixParser together with the Lexer
defined in the same translation unit), with proofs about tokenization,
precedence/associativity of the parse trees, and the teardown discipline
of the error paths.

Conventions of the embedding:
- The C++ input stream is a `List Char` consumed from the front; the
  line/column counters are threaded explicitly, exactly mirroring
  `Lexer::consume`.
- Recursion that is unbounded in the C++ (the `while` loop of
  `Lexer::tokenize`, and the mutually recursive precedence cascade of the
  parser) is made structural with an explicit fuel parameter; running out
  of fuel yields a distinguished result that no theorem below identifies
  with a syntax error.  Fuel is always instantiated large enough that it
  is never exhausted on the inputs considered.
- The C++ `double` payload of a `Node` (produced by `std::stod`) is
  represented by the decimal text it was parsed from: literal nodes store
  the source text of the number, boolean literals store "1" / "0", and
  the default payload 0 of operator nodes is represented by "0".  No
  claim below distinguishes two spellings of the same double.
- Heap behaviour is modelled by two counters in the parser state:
  `live` is the number of currently allocated `Node` objects (each `new`
  increments it, `clearTree` on a tree decrements it by the size of the
  tree), and `allocs` is the monotone count of all `new` expressions
  executed.  A function leaks memory exactly when it raises an error yet
  returns a state whose `live` differs from the one it was given.
-/

namespace Scrypt

/-- Token kinds of the lexer and parser (enum TokenType). -/
inductive TokenType where
  | NUMBER | IDENTIFIER | BOOLEAN_TRUE | BOOLEAN_FALSE
  | ASSIGN | LOGICAL_OR | LOGICAL_XOR | LOGICAL_AND
  | EQUAL | NOT_EQUAL | LESS | LESS_EQUAL | GREATER | GREATER_EQUAL
  | ADD | SUBTRACT | MULTIPLY | DIVIDE | MODULO
  | LEFT_PAREN | RIGHT_PAREN | UNKNOWN
  deriving DecidableEq, Repr

/-- A lexical token: kind, source text, and 1-based position (struct Token). -/
structure Token where
  type : TokenType
  value : String
  line : Nat
  column : Nat
  deriving DecidableEq, Repr

/-- Whitespace in the sense of std::isspace in the C locale. -/
def isspaceChar (c : Char) : Bool :=
  c == ' ' || c == '\t' || c == '\n' || c == '\x0b' || c == '\x0c' || c == '\r'

/-- Lexer::isDigit: a decimal digit or a dot. -/
def lexIsDigit (c : Char) : Bool :=
  c.isDigit || c == '.'

/-- Lexer::isOperator: one of the four arithmetic operator characters. -/
def lexIsOperator (c : Char) : Bool :=
  c == '+' || c == '-' || c == '*' || c == '/'

/-- Lexer::consume position update: consuming `c` at (line, col) yields the
new (line, col); a newline increments the line and resets the column to 1,
anything else increments the column. -/
def consumeChar (c : Char) (line col : Nat) : Nat × Nat :=
  if c == '\n' then (line + 1, 1) else (line, col + 1)

/-- End of the scan of Lexer::number: the collected text is an UNKNOWN
token when it starts or ends with a dot, and a NUMBER token otherwise. -/
def numberFinish (num : String) (line startCol : Nat) : Token :=
  if num.front == '.' || num.back == '.' then
    ⟨.UNKNOWN, num, line, startCol⟩
  else
    ⟨.NUMBER, num, line, startCol⟩

/-- Loop of Lexer::number: greedily consume digits and dots, aborting with
an UNKNOWN token (text including the offending dot) as soon as a second
dot is consumed.  Returns the token together with the remaining input and
the updated position. -/
def numberLoop (input : List Char) (line col : Nat) (num : String)
    (hasDecimal : Bool) (startCol : Nat) : Token × List Char × Nat × Nat :=
  match input with
  | [] => (numberFinish num line startCol, [], line, col)
  | c :: rest =>
    if lexIsDigit c then
      let lc := consumeChar c line col
      if c == '.' then
        if hasDecimal then
          ((⟨.UNKNOWN, num.push c, lc.1, startCol⟩ : Token), rest, lc.1, lc.2)
        else
          numberLoop rest lc.1 lc.2 (num.push c) true startCol
      else
        numberLoop rest lc.1 lc.2 (num.push c) hasDecimal startCol
    else
      (numberFinish num line startCol, c :: rest, line, col)

/-- Lexer::op: classify a consumed operator character.  The UNKNOWN default
of the switch is unreachable from tokenize, which guards with isOperator. -/
def opToken (c : Char) (line startCol : Nat) : Token :=
  if c == '+' then ⟨.ADD, "+", line, startCol⟩
  else if c == '-' then ⟨.SUBTRACT, "-", line, startCol⟩
  else if c == '*' then ⟨.MULTIPLY, "*", line, startCol⟩
  else if c == '/' then ⟨.DIVIDE, "/", line, startCol⟩
  else ⟨.UNKNOWN, String.singleton c, line, startCol⟩

/-- Main loop of Lexer::tokenize.  One unit of fuel is spent per iteration
of the C++ while loop; since every iteration consumes at least one input
character, fuel (length of input + 1) never runs out.  Note that in the
catch-all branch the C++ builds the token as
{ UNKNOWN, std::string(1, consume()), line, col }: the braced initializer
evaluates consume() before reading line and col, so the recorded position
is the one just past the offending character, and the function returns at
once without appending the END sentinel. -/
def tokenizeLoop : Nat → List Char → Nat → Nat → List Token
  | 0, _, _, _ => []
  | _ + 1, [], line, col => [(⟨.UNKNOWN, "END", line, col⟩ : Token)]
  | fuel + 1, c :: rest, line, col =>
    if isspaceChar c then
      let lc := consumeChar c line col
      tokenizeLoop fuel rest lc.1 lc.2
    else if c == '(' then
      let lc := consumeChar c line col
      (⟨.LEFT_PAREN, "(", line, col⟩ : Token) :: tokenizeLoop fuel rest lc.1 lc.2
    else if c == ')' then
      let lc := consumeChar c line col
      (⟨.RIGHT_PAREN, ")", line, col⟩ : Token) :: tokenizeLoop fuel rest lc.1 lc.2
    else if lexIsDigit c then
      let r := numberLoop (c :: rest) line col "" false col
      r.1 :: tokenizeLoop fuel r.2.1 r.2.2.1 r.2.2.2
    else if lexIsOperator c then
      let lc := consumeChar c line col
      opToken c lc.1 col :: tokenizeLoop fuel rest lc.1 lc.2
    else
      let lc := consumeChar c line col
      [(⟨.UNKNOWN, String.singleton c, lc.1, lc.2⟩ : Token)]

/-- Lexer::tokenize on a whole input string, starting at line 1, column 1. -/
def tokenize (s : String) : List Token :=
  tokenizeLoop (s.length + 1) s.data 1 1




/-- Node kinds of the AST (enum NodeType). -/
inductive NodeType where
  | NUMBER | BOOLEAN_LITERAL | IDENTIFIER | ASSIGN
  | LOGICAL_OR | LOGICAL_XOR | LOGICAL_AND
  | EQUAL | NOT_EQUAL | LESS_THAN | LESS_EQUAL | GREATER_THAN | GREATER_EQUAL
  | ADD | SUBTRACT | MULTIPLY | DIVIDE | MODULO
  deriving DecidableEq, Repr

mutual
/-- An AST node (struct Node): kind, numeric payload (see the header
comment for the text representation of the double), identifier name, and
the owned children in order.  The children list is a nested inductive so
that structural recursion over trees stays definitional. -/
inductive Node where
  | mk (type : NodeType) (value : String) (name : String) (children : NodeList)
  deriving DecidableEq, Repr

/-- A list of owned child nodes (std::vector of Node pointers). -/
inductive NodeList where
  | nil
  | cons (head : Node) (tail : NodeList)
  deriving DecidableEq, Repr
end

mutual
/-- Number of heap nodes of a tree: exactly the number of delete
operations InfixParser::clearTree performs on it. -/
def Node.size : Node → Nat
  | .mk _ _ _ cs => 1 + cs.size

/-- Total size of a list of trees. -/
def NodeList.size : NodeList → Nat
  | .nil => 0
  | .cons h t => h.size + t.size
end

/-- Kind of a node (the type field). -/
def Node.type : Node → NodeType
  | .mk t _ _ _ => t

/-- Leaf built by factor for a NUMBER token: new Node(NUMBER, stod(text)). -/
def mkNum (v : String) : Node := .mk .NUMBER v "" .nil

/-- Leaf built by factor for a boolean token: new Node(BOOLEAN_LITERAL, 1 or 0). -/
def mkBool (v : String) : Node := .mk .BOOLEAN_LITERAL v "" .nil

/-- Leaf built by factor for an IDENTIFIER token: new Node(IDENTIFIER, 0, text). -/
def mkIdent (n : String) : Node := .mk .IDENTIFIER "0" n .nil

/-- Binary operator node: a new Node of the given kind whose children
vector receives the left and then the right operand. -/
def mkBin (t : NodeType) (l r : Node) : Node :=
  .mk t "0" "" (.cons l (.cons r .nil))

/-- Result of one parsing function: a value, a thrown syntax error
(std::runtime_error built from a token position and text), or exhaustion
of the fuel of the model. -/
inductive PResult (α : Type) where
  | ok (a : α)
  | err (line col : Nat) (text : String)
  | fuel
  deriving DecidableEq, Repr

/-- Parser state: the token vector and cursor of InfixParser, the
unmatchedParentheses counter, and the two heap counters of the model
(live nodes, total allocations). -/
structure PState where
  tokens : List Token
  currentTokenIndex : Nat
  unmatchedParentheses : Int
  live : Nat
  allocs : Nat
  deriving DecidableEq, Repr

/-- The token under the cursor (InfixParser::currentToken).  The C++
indexes the vector unchecked; the out-of-range default here is irrelevant
because every token stream considered ends in an UNKNOWN token, past
which the parser never advances. -/
def PState.currentToken (s : PState) : Token :=
  s.tokens.getD s.currentTokenIndex ⟨.UNKNOWN, "END", 0, 0⟩

/-- currentTokenIndex++. -/
def PState.advance : PState → PState
  | ⟨ts, i, u, l, a⟩ => ⟨ts, i + 1, u, l, a⟩

/-- Effect of one new Node(...) on the heap counters. -/
def PState.alloc : PState → PState
  | ⟨ts, i, u, l, a⟩ => ⟨ts, i, u, l + 1, a + 1⟩

/-- unmatchedParentheses++. -/
def PState.parenInc : PState → PState
  | ⟨ts, i, u, l, a⟩ => ⟨ts, i, u + 1, l, a⟩

/-- unmatchedParentheses--. -/
def PState.parenDec : PState → PState
  | ⟨ts, i, u, l, a⟩ => ⟨ts, i, u - 1, l, a⟩

/-- InfixParser::clearTree on a non-null root: every node of the tree is
deleted.  The C++ also nulls the cleared pointer through the reference
argument; in the model the cleared tree is simply not used again. -/
def clearTreeS (n : Node) : PState → PState
  | ⟨ts, i, u, l, a⟩ => ⟨ts, i, u, l - n.size, a⟩

/-- Operator set of logicalOrExpression: the while condition admits
LOGICAL_OR and builds a LOGICAL_OR node. -/
def logicalOrOps : TokenType → Option NodeType
  | .LOGICAL_OR => some .LOGICAL_OR
  | _ => none

/-- Operator set of logicalXorExpression. -/
def logicalXorOps : TokenType → Option NodeType
  | .LOGICAL_XOR => some .LOGICAL_XOR
  | _ => none

/-- Operator set of logicalAndExpression. -/
def logicalAndOps : TokenType → Option NodeType
  | .LOGICAL_AND => some .LOGICAL_AND
  | _ => none

/-- Operator set of equalityExpression: EQUAL and NOT_EQUAL, mapped to the
node kind chosen by the conditional on op.type. -/
def equalityOps : TokenType → Option NodeType
  | .EQUAL => some .EQUAL
  | .NOT_EQUAL => some .NOT_EQUAL
  | _ => none

/-- Operator set of relationalExpression: the four comparison tokens,
mapped to node kinds by the chained conditional (whose final branch,
taken exactly when the guard admitted GREATER_EQUAL, is GREATER_EQUAL). -/
def relationalOps : TokenType → Option NodeType
  | .LESS => some .LESS_THAN
  | .LESS_EQUAL => some .LESS_EQUAL
  | .GREATER => some .GREATER_THAN
  | .GREATER_EQUAL => some .GREATER_EQUAL
  | _ => none

/-- Operator set of additiveExpression. -/
def additiveOps : TokenType → Option NodeType
  | .ADD => some .ADD
  | .SUBTRACT => some .SUBTRACT
  | _ => none

/-- Operator set of multiplicativeExpression (the else branch of the kind
selection, reached exactly when the guard admitted MODULO, is MODULO). -/
def multiplicativeOps : TokenType → Option NodeType
  | .MULTIPLY => some .MULTIPLY
  | .DIVIDE => some .DIVIDE
  | .MODULO => some .MODULO
  | _ => none

mutual

/-- InfixParser::expression: delegate to assignmentExpression.  The catch
block clears a pointer that is still null whenever the inner call throws,
so it has no heap effect. -/
def expression : Nat → PState → PResult Node × PState
  | 0, s => (.fuel, s)
  | fuel + 1, s => assignmentExpression fuel s

/-- InfixParser::assignmentExpression.  On an ASSIGN token it requires the
left operand to be an IDENTIFIER node (otherwise it clears that operand
and throws with the position and text of the ASSIGN token), recurses into
itself for the right-hand side, and only then allocates the ASSIGN node.
The catch block clears the left operand when the recursive call throws;
the right-hand pointer is still null on every throwing path. -/
def assignmentExpression : Nat → PState → PResult Node × PState
  | 0, s => (.fuel, s)
  | fuel + 1, s =>
    match logicalOrExpression fuel s with
    | (.ok node, s1) =>
      if s1.currentToken.type = .ASSIGN then
        if node.type ≠ .IDENTIFIER then
          (.err s1.currentToken.line s1.currentToken.column s1.currentToken.value,
            clearTreeS node s1)
        else
          match assignmentExpression fuel s1.advance with
          | (.ok valueNode, s2) => (.ok (mkBin .ASSIGN node valueNode), s2.alloc)
          | (.err l c v, s2) => (.err l c v, clearTreeS node s2)
          | (.fuel, s2) => (.fuel, clearTreeS node s2)
      else
        (.ok node, s1)
    | out => out

/-- InfixParser::logicalOrExpression: first operand from the level below,
then the iterative wrapping loop. -/
def logicalOrExpression : Nat → PState → PResult Node × PState
  | 0, s => (.fuel, s)
  | fuel + 1, s =>
    match logicalXorExpression fuel s with
    | (.ok node, s1) => logicalOrLoop fuel node s1
    | out => out

/-- While loop of logicalOrExpression.  While the current token is in the
operator set, consume it, parse the next operand from the level below,
and wrap: the node built so far becomes the left child of a fresh node.
When the operand parse throws, the catch block clears the accumulated
left tree (the right pointer is still null) and rethrows.  Exhausting the
fuel of the model likewise clears the accumulated tree, mirroring the
catch-all. -/
def logicalOrLoop : Nat → Node → PState → PResult Node × PState
  | 0, node, s => (.fuel, clearTreeS node s)
  | fuel + 1, node, s =>
    match logicalOrOps s.currentToken.type with
    | some nt =>
      match logicalXorExpression fuel s.advance with
      | (.ok right, s1) => logicalOrLoop fuel (mkBin nt node right) s1.alloc
      | (.err l c v, s1) => (.err l c v, clearTreeS node s1)
      | (.fuel, s1) => (.fuel, clearTreeS node s1)
    | none => (.ok node, s)

/-- InfixParser::logicalXorExpression. -/
def logicalXorExpression : Nat → PState → PResult Node × PState
  | 0, s => (.fuel, s)
  | fuel + 1, s =>
    match logicalAndExpression fuel s with
    | (.ok node, s1) => logicalXorLoop fuel node s1
    | out => out

/-- While loop of logicalXorExpression; same shape as logicalOrLoop. -/
def logicalXorLoop : Nat → Node → PState → PResult Node × PState
  | 0, node, s => (.fuel, clearTreeS node s)
  | fuel + 1, node, s =>
    match logicalXorOps s.currentToken.type with
    | some nt =>
      match logicalAndExpression fuel s.advance with
      | (.ok right, s1) => logicalXorLoop fuel (mkBin nt node right) s1.alloc
      | (.err l c v, s1) => (.err l c v, clearTreeS node s1)
      | (.fuel, s1) => (.fuel, clearTreeS node s1)
    | none => (.ok node, s)

/-- InfixParser::logicalAndExpression. -/
def logicalAndExpression : Nat → PState → PResult Node × PState
  | 0, s => (.fuel, s)
  | fuel + 1, s =>
    match equalityExpression fuel s with
    | (.ok node, s1) => logicalAndLoop fuel node s1
    | out => out

/-- While loop of logicalAndExpression; same shape as logicalOrLoop. -/
def logicalAndLoop : Nat → Node → PState → PResult Node × PState
  | 0, node, s => (.fuel, clearTreeS node s)
  | fuel + 1, node, s =>
    match logicalAndOps s.currentToken.type with
    | some nt =>
      match equalityExpression fuel s.advance with
      | (.ok right, s1) => logicalAndLoop fuel (mkBin nt node right) s1.alloc
      | (.err l c v, s1) => (.err l c v, clearTreeS node s1)
      | (.fuel, s1) => (.fuel, clearTreeS node s1)
    | none => (.ok node, s)

/-- InfixParser::equalityExpression. -/
def equalityExpression : Nat → PState → PResult Node × PState
  | 0, s => (.fuel, s)
  | fuel + 1, s =>
    match relationalExpression fuel s with
    | (.ok node, s1) => equalityLoop fuel node s1
    | out => out

/-- While loop of equalityExpression; same shape as logicalOrLoop. -/
def equalityLoop : Nat → Node → PState → PResult Node × PState
  | 0, node, s => (.fuel, clearTreeS node s)
  | fuel + 1, node, s =>
    match equalityOps s.currentToken.type with
    | some nt =>
      match relationalExpression fuel s.advance with
      | (.ok right, s1) => equalityLoop fuel (mkBin nt node right) s1.alloc
      | (.err l c v, s1) => (.err l c v, clearTreeS node s1)
      | (.fuel, s1) => (.fuel, clearTreeS node s1)
    | none => (.ok node, s)

/-- InfixParser::relationalExpression. -/
def relationalExpression : Nat → PState → PResult Node × PState
  | 0, s => (.fuel, s)
  | fuel + 1, s =>
    match additiveExpression fuel s with
    | (.ok node, s1) => relationalLoop fuel node s1
    | out => out

/-- While loop of relationalExpression; same shape as logicalOrLoop. -/
def relationalLoop : Nat → Node → PState → PResult Node × PState
  | 0, node, s => (.fuel, clearTreeS node s)
  | fuel + 1, node, s =>
    match relationalOps s.currentToken.type with
    | some nt =>
      match additiveExpression fuel s.advance with
      | (.ok right, s1) => relationalLoop fuel (mkBin nt node right) s1.alloc
      | (.err l c v, s1) => (.err l c v, clearTreeS node s1)
      | (.fuel, s1) => (.fuel, clearTreeS node s1)
    | none => (.ok node, s)

/-- InfixParser::additiveExpression. -/
def additiveExpression : Nat → PState → PResult Node × PState
  | 0, s => (.fuel, s)
  | fuel + 1, s =>
    match multiplicativeExpression fuel s with
    | (.ok node, s1) => additiveLoop fuel node s1
    | out => out

/-- While loop of additiveExpression; same shape as logicalOrLoop. -/
def additiveLoop : Nat → Node → PState → PResult Node × PState
  | 0, node, s => (.fuel, clearTreeS node s)
  | fuel + 1, node, s =>
    match additiveOps s.currentToken.type with
    | some nt =>
      match multiplicativeExpression fuel s.advance with
      | (.ok right, s1) => additiveLoop fuel (mkBin nt node right) s1.alloc
      | (.err l c v, s1) => (.err l c v, clearTreeS node s1)
      | (.fuel, s1) => (.fuel, clearTreeS node s1)
    | none => (.ok node, s)

/-- InfixParser::multiplicativeExpression. -/
def multiplicativeExpression : Nat → PState → PResult Node × PState
  | 0, s => (.fuel, s)
  | fuel + 1, s =>
    match factor fuel s with
    | (.ok node, s1) => multiplicativeLoop fuel node s1
    | out => out

/-- While loop of multiplicativeExpression; same shape as logicalOrLoop. -/
def multiplicativeLoop : Nat → Node → PState → PResult Node × PState
  | 0, node, s => (.fuel, clearTreeS node s)
  | fuel + 1, node, s =>
    match multiplicativeOps s.currentToken.type with
    | some nt =>
      match factor fuel s.advance with
      | (.ok right, s1) => multiplicativeLoop fuel (mkBin nt node right) s1.alloc
      | (.err l c v, s1) => (.err l c v, clearTreeS node s1)
      | (.fuel, s1) => (.fuel, clearTreeS node s1)
    | none => (.ok node, s)

/-- InfixParser::factor.  Leaves for NUMBER, IDENTIFIER and the two
boolean tokens; for LEFT_PAREN, increment unmatchedParentheses, recurse
into expression, and require an immediate RIGHT_PAREN, otherwise clear
the inner tree and throw with the position and text of the current
(offending) token.  Any other token throws with its own position and
text; nothing has been allocated at that point. -/
def factor : Nat → PState → PResult Node × PState
  | 0, s => (.fuel, s)
  | fuel + 1, s =>
    if s.currentToken.type = .NUMBER then
      (.ok (mkNum s.currentToken.value), s.alloc.advance)
    else if s.currentToken.type = .IDENTIFIER then
      (.ok (mkIdent s.currentToken.value), s.alloc.advance)
    else if s.currentToken.type = .LEFT_PAREN then
      match expression fuel s.parenInc.advance with
      | (.ok node, s1) =>
        if s1.currentToken.type = .RIGHT_PAREN then
          (.ok node, s1.parenDec.advance)
        else
          (.err s1.currentToken.line s1.currentToken.column s1.currentToken.value,
            clearTreeS node s1)
      | out => out
    else if s.currentToken.type = .BOOLEAN_TRUE then
      (.ok (mkBool "1"), s.alloc.advance)
    else if s.currentToken.type = .BOOLEAN_FALSE then
      (.ok (mkBool "0"), s.alloc.advance)
    else
      (.err s.currentToken.line s.currentToken.column s.currentToken.value, s)

end

/-- Clearing a vector of statement roots: the for loop over statements in
the error paths of InfixParser::parse.  The clearTree(root) call in the
same loops is a no-op, because the root member is initialized to null in
the constructor and never assigned. -/
def clearStatements : List Node → PState → PState
  | [], s => s
  | n :: rest, s => clearStatements rest (clearTreeS n s)

/-- Loop of InfixParser::parse.  While the current token is not UNKNOWN,
parse one expression; if the next token is UNKNOWN or lies on a later
line than the statement started on, append the statement (updating the
statement line); otherwise clear the previously collected statement roots
and throw an unexpected-token error at the current token.  Note that the
C++ cleanup loop in that branch iterates a variable named stmt that
shadows the just-parsed statement, so the just-built subtree is not
cleared there; the model reproduces this.  A propagating error from
expression clears the collected roots (the catch block). -/
def parseLoop : Nat → List Node → Nat → PState → PResult (List Node) × PState
  | 0, statements, _, s => (.fuel, clearStatements statements s)
  | fuel + 1, statements, statementLine, s =>
    if s.currentToken.type = .UNKNOWN then
      (.ok statements, s)
    else
      match expression fuel s with
      | (.ok stmt, s1) =>
        if s1.currentToken.type = .UNKNOWN ∨ statementLine < s1.currentToken.line then
          parseLoop fuel (statements ++ [stmt])
            (if s1.currentToken.type ≠ .UNKNOWN then s1.currentToken.line
             else statementLine) s1
        else
          (.err s1.currentToken.line s1.currentToken.column s1.currentToken.value,
            clearStatements statements s1)
      | (.err l c v, s1) => (.err l c v, clearStatements statements s1)
      | (.fuel, s1) => (.fuel, clearStatements statements s1)

/-- InfixParser::parse: collect one root per statement, starting the
statement-line tracker at the line of the first token. -/
def parse (fuel : Nat) (s : PState) : PResult (List Node) × PState :=
  parseLoop fuel [] s.currentToken.line s

/-- Fresh parser state over a token vector: cursor at 0, no unmatched
parentheses, empty heap. -/
def initState (ts : List Token) : PState :=
  ⟨ts, 0, 0, 0, 0⟩

/-- Heap contract of a parsing function of the cascade, relative to the
state it was entered in: a successful call adds exactly the nodes of the
returned tree to the live heap, and a call that exits abnormally (a
thrown syntax error, or fuel exhaustion of the model, which the catch-all
handlers of the source treat alike) leaves the live heap exactly as it
found it. -/
def liveSpec (s : PState) (out : PResult Node × PState) : Prop :=
  match out with
  | (.ok t, s1) => s1.live = s.live + t.size
  | (.err _ _ _, s1) => s1.live = s.live
  | (.fuel, s1) => s1.live = s.live

/-- Heap contract of a wrapping loop that enters owning the accumulated
tree node (already counted in the live heap): on success the loop has
replaced that tree by the returned one, on abnormal exit it has also torn
the accumulated tree down. -/
def loopSpec (node : Node) (s : PState) (out : PResult Node × PState) : Prop :=
  match out with
  | (.ok t, s1) => s1.live + node.size = s.live + t.size
  | (.err _ _ _, s1) => s1.live + node.size = s.live
  | (.fuel, s1) => s1.live + node.size = s.live


@[simp] theorem PState.advance_live (s : PState) : s.advance.live = s.live := by
  cases s; rfl

@[simp] theorem PState.alloc_live (s : PState) : s.alloc.live = s.live + 1 := by
  cases s; rfl

@[simp] theorem PState.parenInc_live (s : PState) : s.parenInc.live = s.live := by
  cases s; rfl

@[simp] theorem PState.parenDec_live (s : PState) : s.parenDec.live = s.live := by
  cases s; rfl

@[simp] theorem clearTreeS_live (n : Node) (s : PState) :
    (clearTreeS n s).live = s.live - n.size := by
  cases s; rfl

@[simp] theorem mkBin_size (t : NodeType) (l r : Node) :
    (mkBin t l r).size = 1 + l.size + r.size := by
  show 1 + (l.size + (r.size + 0)) = 1 + l.size + r.size
  omega

@[simp] theorem mkNum_size (v : String) : (mkNum v).size = 1 := rfl

@[simp] theorem mkBool_size (v : String) : (mkBool v).size = 1 := rfl

@[simp] theorem mkIdent_size (n : String) : (mkIdent n).size = 1 := rfl


/-- Heap contract of the whole precedence cascade, proved by mutual
induction on fuel: every level either returns a tree and grows the live
heap by exactly the size of that tree, or exits abnormally with the live
heap restored; the loops additionally tear down their accumulated tree on
abnormal exit. -/
theorem cascadeLive : ∀ fuel : Nat,
    (∀ s, liveSpec s (expression fuel s)) ∧
    (∀ s, liveSpec s (assignmentExpression fuel s)) ∧
    (∀ s, liveSpec s (logicalOrExpression fuel s)) ∧
    (∀ node s, node.size ≤ s.live → loopSpec node s (logicalOrLoop fuel node s)) ∧
    (∀ s, liveSpec s (logicalXorExpression fuel s)) ∧
    (∀ node s, node.size ≤ s.live → loopSpec node s (logicalXorLoop fuel node s)) ∧
    (∀ s, liveSpec s (logicalAndExpression fuel s)) ∧
    (∀ node s, node.size ≤ s.live → loopSpec node s (logicalAndLoop fuel node s)) ∧
    (∀ s, liveSpec s (equalityExpression fuel s)) ∧
    (∀ node s, node.size ≤ s.live → loopSpec node s (equalityLoop fuel node s)) ∧
    (∀ s, liveSpec s (relationalExpression fuel s)) ∧
    (∀ node s, node.size ≤ s.live → loopSpec node s (relationalLoop fuel node s)) ∧
    (∀ s, liveSpec s (additiveExpression fuel s)) ∧
    (∀ node s, node.size ≤ s.live → loopSpec node s (additiveLoop fuel node s)) ∧
    (∀ s, liveSpec s (multiplicativeExpression fuel s)) ∧
    (∀ node s, node.size ≤ s.live → loopSpec node s (multiplicativeLoop fuel node s)) ∧
    (∀ s, liveSpec s (factor fuel s)) := by
  intro fuel
  induction fuel with
  | zero =>
    refine ⟨?_, ?_, ?_, ?_, ?_, ?_, ?_, ?_, ?_, ?_, ?_, ?_, ?_, ?_, ?_, ?_, ?_⟩ <;>
      first
      | (intro s
         simp only [expression, assignmentExpression, logicalOrExpression,
           logicalXorExpression, logicalAndExpression, equalityExpression,
           relationalExpression, additiveExpression, multiplicativeExpression,
           factor, liveSpec])
      | (intro node s hle
         simp only [logicalOrLoop, logicalXorLoop, logicalAndLoop, equalityLoop,
           relationalLoop, additiveLoop, multiplicativeLoop, loopSpec,
           clearTreeS_live]
         omega)
  | succ fuel ih =>
    obtain ⟨ihE, ihA, ihLor, ihLorL, ihLxor, ihLxorL, ihLand, ihLandL,
      ihEq, ihEqL, ihRel, ihRelL, ihAdd, ihAddL, ihMul, ihMulL, ihF⟩ := ih
    refine ⟨?_, ?_, ?_, ?_, ?_, ?_, ?_, ?_, ?_, ?_, ?_, ?_, ?_, ?_, ?_, ?_, ?_⟩
    -- expression
    · intro s
      simp only [expression]
      exact ihA s
    -- assignmentExpression
    · intro s
      simp only [assignmentExpression]
      have hx := ihLor s
      rcases h : logicalOrExpression fuel s with ⟨r, s1⟩
      rw [h] at hx
      cases r with
      | ok node =>
        simp only [liveSpec] at hx
        by_cases hA : s1.currentToken.type = .ASSIGN
        · simp only [hA, if_true, ite_true]
          by_cases hI : node.type = .IDENTIFIER
          · simp only [hI, ne_eq, not_true_eq_false, if_false, ite_false]
            have ha := ihA s1.advance
            rcases h2 : assignmentExpression fuel s1.advance with ⟨r2, s2⟩
            rw [h2] at ha
            cases r2 <;>
              simp only [liveSpec, loopSpec, PState.advance_live,
                PState.alloc_live, clearTreeS_live, mkBin_size] at ha ⊢ <;>
              omega
          · simp only [hI, ne_eq, not_false_eq_true, if_true, ite_true]
            show liveSpec s (_, clearTreeS node s1)
            simp only [liveSpec, clearTreeS_live]
            omega
        · simp only [hA, if_false, ite_false]
          exact hx
      | err l c v => exact hx
      | fuel => exact hx
    -- logicalOrExpression
    · intro s
      simp only [logicalOrExpression]
      have hx := ihLxor s
      rcases h : logicalXorExpression fuel s with ⟨r, s1⟩
      rw [h] at hx
      cases r with
      | ok node =>
        simp only [liveSpec] at hx
        show liveSpec s (logicalOrLoop fuel node s1)
        have hl := ihLorL node s1 (by omega)
        rcases h2 : logicalOrLoop fuel node s1 with ⟨r2, s2⟩
        rw [h2] at hl
        cases r2 <;> simp only [liveSpec, loopSpec] at hl ⊢ <;> omega
      | err l c v => exact hx
      | fuel => exact hx
    -- logicalOrLoop
    · intro node s hle
      simp only [logicalOrLoop]
      rcases hops : logicalOrOps s.currentToken.type with _ | nt
      · show loopSpec node s (.ok node, s)
        simp only [loopSpec]
      · have hx := ihLxor s.advance
        rcases h : logicalXorExpression fuel s.advance with ⟨r, s1⟩
        rw [h] at hx
        cases r with
        | ok right =>
          simp only [liveSpec, PState.advance_live] at hx
          show loopSpec node s (logicalOrLoop fuel (mkBin nt node right) s1.alloc)
          have hl := ihLorL (mkBin nt node right) s1.alloc
            (by simp only [PState.alloc_live, mkBin_size]; omega)
          rcases h2 : logicalOrLoop fuel (mkBin nt node right) s1.alloc with ⟨r2, s2⟩
          rw [h2] at hl
          cases r2 <;>
            simp only [loopSpec, PState.alloc_live, mkBin_size] at hl ⊢ <;> omega
        | err l c v =>
          simp only [liveSpec, PState.advance_live] at hx
          show loopSpec node s (_, clearTreeS node s1)
          simp only [loopSpec, clearTreeS_live]
          omega
        | fuel =>
          simp only [liveSpec, PState.advance_live] at hx
          show loopSpec node s (_, clearTreeS node s1)
          simp only [loopSpec, clearTreeS_live]
          omega
    -- logicalXorExpression
    · intro s
      simp only [logicalXorExpression]
      have hx := ihLand s
      rcases h : logicalAndExpression fuel s with ⟨r, s1⟩
      rw [h] at hx
      cases r with
      | ok node =>
        simp only [liveSpec] at hx
        show liveSpec s (logicalXorLoop fuel node s1)
        have hl := ihLxorL node s1 (by omega)
        rcases h2 : logicalXorLoop fuel node s1 with ⟨r2, s2⟩
        rw [h2] at hl
        cases r2 <;> simp only [liveSpec, loopSpec] at hl ⊢ <;> omega
      | err l c v => exact hx
      | fuel => exact hx
    -- logicalXorLoop
    · intro node s hle
      simp only [logicalXorLoop]
      rcases hops : logicalXorOps s.currentToken.type with _ | nt
      · show loopSpec node s (.ok node, s)
        simp only [loopSpec]
      · have hx := ihLand s.advance
        rcases h : logicalAndExpression fuel s.advance with ⟨r, s1⟩
        rw [h] at hx
        cases r with
        | ok right =>
          simp only [liveSpec, PState.advance_live] at hx
          show loopSpec node s (logicalXorLoop fuel (mkBin nt node right) s1.alloc)
          have hl := ihLxorL (mkBin nt node right) s1.alloc
            (by simp only [PState.alloc_live, mkBin_size]; omega)
          rcases h2 : logicalXorLoop fuel (mkBin nt node right) s1.alloc with ⟨r2, s2⟩
          rw [h2] at hl
          cases r2 <;>
            simp only [loopSpec, PState.alloc_live, mkBin_size] at hl ⊢ <;> omega
        | err l c v =>
          simp only [liveSpec, PState.advance_live] at hx
          show loopSpec node s (_, clearTreeS node s1)
          simp only [loopSpec, clearTreeS_live]
          omega
        | fuel =>
          simp only [liveSpec, PState.advance_live] at hx
          show loopSpec node s (_, clearTreeS node s1)
          simp only [loopSpec, clearTreeS_live]
          omega
    -- logicalAndExpression
    · intro s
      simp only [logicalAndExpression]
      have hx := ihEq s
      rcases h : equalityExpression fuel s with ⟨r, s1⟩
      rw [h] at hx
      cases r with
      | ok node =>
        simp only [liveSpec] at hx
        show liveSpec s (logicalAndLoop fuel node s1)
        have hl := ihLandL node s1 (by omega)
        rcases h2 : logicalAndLoop fuel node s1 with ⟨r2, s2⟩
        rw [h2] at hl
        cases r2 <;> simp only [liveSpec, loopSpec] at hl ⊢ <;> omega
      | err l c v => exact hx
      | fuel => exact hx
    -- logicalAndLoop
    · intro node s hle
      simp only [logicalAndLoop]
      rcases hops : logicalAndOps s.currentToken.type with _ | nt
      · show loopSpec node s (.ok node, s)
        simp only [loopSpec]
      · have hx := ihEq s.advance
        rcases h : equalityExpression fuel s.advance with ⟨r, s1⟩
        rw [h] at hx
        cases r with
        | ok right =>
          simp only [liveSpec, PState.advance_live] at hx
          show loopSpec node s (logicalAndLoop fuel (mkBin nt node right) s1.alloc)
          have hl := ihLandL (mkBin nt node right) s1.alloc
            (by simp only [PState.alloc_live, mkBin_size]; omega)
          rcases h2 : logicalAndLoop fuel (mkBin nt node right) s1.alloc with ⟨r2, s2⟩
          rw [h2] at hl
          cases r2 <;>
            simp only [loopSpec, PState.alloc_live, mkBin_size] at hl ⊢ <;> omega
        | err l c v =>
          simp only [liveSpec, PState.advance_live] at hx
          show loopSpec node s (_, clearTreeS node s1)
          simp only [loopSpec, clearTreeS_live]
          omega
        | fuel =>
          simp only [liveSpec, PState.advance_live] at hx
          show loopSpec node s (_, clearTreeS node s1)
          simp only [loopSpec, clearTreeS_live]
          omega
    -- equalityExpression
    · intro s
      simp only [equalityExpression]
      have hx := ihRel s
      rcases h : relationalExpression fuel s with ⟨r, s1⟩
      rw [h] at hx
      cases r with
      | ok node =>
        simp only [liveSpec] at hx
        show liveSpec s (equalityLoop fuel node s1)
        have hl := ihEqL node s1 (by omega)
        rcases h2 : equalityLoop fuel node s1 with ⟨r2, s2⟩
        rw [h2] at hl
        cases r2 <;> simp only [liveSpec, loopSpec] at hl ⊢ <;> omega
      | err l c v => exact hx
      | fuel => exact hx
    -- equalityLoop
    · intro node s hle
      simp only [equalityLoop]
      rcases hops : equalityOps s.currentToken.type with _ | nt
      · show loopSpec node s (.ok node, s)
        simp only [loopSpec]
      · have hx := ihRel s.advance
        rcases h : relationalExpression fuel s.advance with ⟨r, s1⟩
        rw [h] at hx
        cases r with
        | ok right =>
          simp only [liveSpec, PState.advance_live] at hx
          show loopSpec node s (equalityLoop fuel (mkBin nt node right) s1.alloc)
          have hl := ihEqL (mkBin nt node right) s1.alloc
            (by simp only [PState.alloc_live, mkBin_size]; omega)
          rcases h2 : equalityLoop fuel (mkBin nt node right) s1.alloc with ⟨r2, s2⟩
          rw [h2] at hl
          cases r2 <;>
            simp only [loopSpec, PState.alloc_live, mkBin_size] at hl ⊢ <;> omega
        | err l c v =>
          simp only [liveSpec, PState.advance_live] at hx
          show loopSpec node s (_, clearTreeS node s1)
          simp only [loopSpec, clearTreeS_live]
          omega
        | fuel =>
          simp only [liveSpec, PState.advance_live] at hx
          show loopSpec node s (_, clearTreeS node s1)
          simp only [loopSpec, clearTreeS_live]
          omega
    -- relationalExpression
    · intro s
      simp only [relationalExpression]
      have hx := ihAdd s
      rcases h : additiveExpression fuel s with ⟨r, s1⟩
      rw [h] at hx
      cases r with
      | ok node =>
        simp only [liveSpec] at hx
        show liveSpec s (relationalLoop fuel node s1)
        have hl := ihRelL node s1 (by omega)
        rcases h2 : relationalLoop fuel node s1 with ⟨r2, s2⟩
        rw [h2] at hl
        cases r2 <;> simp only [liveSpec, loopSpec] at hl ⊢ <;> omega
      | err l c v => exact hx
      | fuel => exact hx
    -- relationalLoop
    · intro node s hle
      simp only [relationalLoop]
      rcases hops : relationalOps s.currentToken.type with _ | nt
      · show loopSpec node s (.ok node, s)
        simp only [loopSpec]
      · have hx := ihAdd s.advance
        rcases h : additiveExpression fuel s.advance with ⟨r, s1⟩
        rw [h] at hx
        cases r with
        | ok right =>
          simp only [liveSpec, PState.advance_live] at hx
          show loopSpec node s (relationalLoop fuel (mkBin nt node right) s1.alloc)
          have hl := ihRelL (mkBin nt node right) s1.alloc
            (by simp only [PState.alloc_live, mkBin_size]; omega)
          rcases h2 : relationalLoop fuel (mkBin nt node right) s1.alloc with ⟨r2, s2⟩
          rw [h2] at hl
          cases r2 <;>
            simp only [loopSpec, PState.alloc_live, mkBin_size] at hl ⊢ <;> omega
        | err l c v =>
          simp only [liveSpec, PState.advance_live] at hx
          show loopSpec node s (_, clearTreeS node s1)
          simp only [loopSpec, clearTreeS_live]
          omega
        | fuel =>
          simp only [liveSpec, PState.advance_live] at hx
          show loopSpec node s (_, clearTreeS node s1)
          simp only [loopSpec, clearTreeS_live]
          omega
    -- additiveExpression
    · intro s
      simp only [additiveExpression]
      have hx := ihMul s
      rcases h : multiplicativeExpression fuel s with ⟨r, s1⟩
      rw [h] at hx
      cases r with
      | ok node =>
        simp only [liveSpec] at hx
        show liveSpec s (additiveLoop fuel node s1)
        have hl := ihAddL node s1 (by omega)
        rcases h2 : additiveLoop fuel node s1 with ⟨r2, s2⟩
        rw [h2] at hl
        cases r2 <;> simp only [liveSpec, loopSpec] at hl ⊢ <;> omega
      | err l c v => exact hx
      | fuel => exact hx
    -- additiveLoop
    · intro node s hle
      simp only [additiveLoop]
      rcases hops : additiveOps s.currentToken.type with _ | nt
      · show loopSpec node s (.ok node, s)
        simp only [loopSpec]
      · have hx := ihMul s.advance
        rcases h : multiplicativeExpression fuel s.advance with ⟨r, s1⟩
        rw [h] at hx
        cases r with
        | ok right =>
          simp only [liveSpec, PState.advance_live] at hx
          show loopSpec node s (additiveLoop fuel (mkBin nt node right) s1.alloc)
          have hl := ihAddL (mkBin nt node right) s1.alloc
            (by simp only [PState.alloc_live, mkBin_size]; omega)
          rcases h2 : additiveLoop fuel (mkBin nt node right) s1.alloc with ⟨r2, s2⟩
          rw [h2] at hl
          cases r2 <;>
            simp only [loopSpec, PState.alloc_live, mkBin_size] at hl ⊢ <;> omega
        | err l c v =>
          simp only [liveSpec, PState.advance_live] at hx
          show loopSpec node s (_, clearTreeS node s1)
          simp only [loopSpec, clearTreeS_live]
          omega
        | fuel =>
          simp only [liveSpec, PState.advance_live] at hx
          show loopSpec node s (_, clearTreeS node s1)
          simp only [loopSpec, clearTreeS_live]
          omega
    -- multiplicativeExpression
    · intro s
      simp only [multiplicativeExpression]
      have hx := ihF s
      rcases h : factor fuel s with ⟨r, s1⟩
      rw [h] at hx
      cases r with
      | ok node =>
        simp only [liveSpec] at hx
        show liveSpec s (multiplicativeLoop fuel node s1)
        have hl := ihMulL node s1 (by omega)
        rcases h2 : multiplicativeLoop fuel node s1 with ⟨r2, s2⟩
        rw [h2] at hl
        cases r2 <;> simp only [liveSpec, loopSpec] at hl ⊢ <;> omega
      | err l c v => exact hx
      | fuel => exact hx
    -- multiplicativeLoop
    · intro node s hle
      simp only [multiplicativeLoop]
      rcases hops : multiplicativeOps s.currentToken.type with _ | nt
      · show loopSpec node s (.ok node, s)
        simp only [loopSpec]
      · have hx := ihF s.advance
        rcases h : factor fuel s.advance with ⟨r, s1⟩
        rw [h] at hx
        cases r with
        | ok right =>
          simp only [liveSpec, PState.advance_live] at hx
          show loopSpec node s (multiplicativeLoop fuel (mkBin nt node right) s1.alloc)
          have hl := ihMulL (mkBin nt node right) s1.alloc
            (by simp only [PState.alloc_live, mkBin_size]; omega)
          rcases h2 : multiplicativeLoop fuel (mkBin nt node right) s1.alloc with ⟨r2, s2⟩
          rw [h2] at hl
          cases r2 <;>
            simp only [loopSpec, PState.alloc_live, mkBin_size] at hl ⊢ <;> omega
        | err l c v =>
          simp only [liveSpec, PState.advance_live] at hx
          show loopSpec node s (_, clearTreeS node s1)
          simp only [loopSpec, clearTreeS_live]
          omega
        | fuel =>
          simp only [liveSpec, PState.advance_live] at hx
          show loopSpec node s (_, clearTreeS node s1)
          simp only [loopSpec, clearTreeS_live]
          omega
    -- factor
    · intro s
      simp only [factor]
      by_cases h1 : s.currentToken.type = .NUMBER
      · simp only [h1, if_true, ite_true]
        show liveSpec s (.ok (mkNum s.currentToken.value), s.alloc.advance)
        simp only [liveSpec, PState.advance_live, PState.alloc_live, mkNum_size]
      · simp only [h1, if_false, ite_false]
        by_cases h2 : s.currentToken.type = .IDENTIFIER
        · simp only [h2, if_true, ite_true]
          show liveSpec s (.ok (mkIdent s.currentToken.value), s.alloc.advance)
          simp only [liveSpec, PState.advance_live, PState.alloc_live, mkIdent_size]
        · simp only [h2, if_false, ite_false]
          by_cases h3 : s.currentToken.type = .LEFT_PAREN
          · simp only [h3, if_true, ite_true]
            have hx := ihE s.parenInc.advance
            rcases h : expression fuel s.parenInc.advance with ⟨r, s1⟩
            rw [h] at hx
            cases r with
            | ok node =>
              simp only [liveSpec, PState.advance_live, PState.parenInc_live] at hx
              by_cases h4 : s1.currentToken.type = .RIGHT_PAREN
              · simp only [h4, if_true, ite_true]
                show liveSpec s (.ok node, s1.parenDec.advance)
                simp only [liveSpec, PState.advance_live, PState.parenDec_live]
                omega
              · simp only [h4, if_false, ite_false]
                show liveSpec s (_, clearTreeS node s1)
                simp only [liveSpec, clearTreeS_live]
                omega
            | err l c v => exact hx
            | fuel => exact hx
          · simp only [h3, if_false, ite_false]
            by_cases h5 : s.currentToken.type = .BOOLEAN_TRUE
            · simp only [h5, if_true, ite_true]
              show liveSpec s (.ok (mkBool "1"), s.alloc.advance)
              simp only [liveSpec, PState.advance_live, PState.alloc_live, mkBool_size]
            · simp only [h5, if_false, ite_false]
              by_cases h6 : s.currentToken.type = .BOOLEAN_FALSE
              · simp only [h6, if_true, ite_true]
                show liveSpec s (.ok (mkBool "0"), s.alloc.advance)
                simp only [liveSpec, PState.advance_live, PState.alloc_live, mkBool_size]
              · simp only [h6, if_false, ite_false]
                show liveSpec s (_, s)
                simp only [liveSpec]

/-- A function satisfying the cascade heap contract restores the live heap
whenever it returns a syntax error. -/
theorem liveSpec_err {s : PState} {out : PResult Node × PState}
    (hs : liveSpec s out) {l c : Nat} {v : String}
    (h : out.1 = .err l c v) : out.2.live = s.live := by
  rcases out with ⟨r, s1⟩
  cases r <;> simp_all [liveSpec]

/-- C2: for every parsing level of the cascade (assignmentExpression,
logicalOrExpression, logicalXorExpression, logicalAndExpression,
equalityExpression, relationalExpression, additiveExpression,
multiplicativeExpression, factor) and every token sequence and entry
state, if the function returns a syntax error then the live heap it
returns equals the live heap it was entered with: every node allocated
during the call — the result built so far as well as any unattached
right-hand fragment — has been torn down before the error propagates, so
a caller never observes or leaks a partially built subtree; the property
holds transitively through the whole cascade. -/
theorem cascade_error_teardown : ∀ (fuel : Nat) (s : PState) (l c : Nat) (v : String),
    ((assignmentExpression fuel s).1 = .err l c v →
      (assignmentExpression fuel s).2.live = s.live) ∧
    ((logicalOrExpression fuel s).1 = .err l c v →
      (logicalOrExpression fuel s).2.live = s.live) ∧
    ((logicalXorExpression fuel s).1 = .err l c v →
      (logicalXorExpression fuel s).2.live = s.live) ∧
    ((logicalAndExpression fuel s).1 = .err l c v →
      (logicalAndExpression fuel s).2.live = s.live) ∧
    ((equalityExpression fuel s).1 = .err l c v →
      (equalityExpression fuel s).2.live = s.live) ∧
    ((relationalExpression fuel s).1 = .err l c v →
      (relationalExpression fuel s).2.live = s.live) ∧
    ((additiveExpression fuel s).1 = .err l c v →
      (additiveExpression fuel s).2.live = s.live) ∧
    ((multiplicativeExpression fuel s).1 = .err l c v →
      (multiplicativeExpression fuel s).2.live = s.live) ∧
    ((factor fuel s).1 = .err l c v →
      (factor fuel s).2.live = s.live) := by
  intro fuel s l c v
  obtain ⟨hE, hA, hLor, hLorL, hLxor, hLxorL, hLand, hLandL, hEq, hEqL, hRel,
    hRelL, hAdd, hAddL, hMul, hMulL, hF⟩ := cascadeLive fuel
  exact ⟨fun h => liveSpec_err (hA s) h, fun h => liveSpec_err (hLor s) h,
    fun h => liveSpec_err (hLxor s) h, fun h => liveSpec_err (hLand s) h,
    fun h => liveSpec_err (hEq s) h, fun h => liveSpec_err (hRel s) h,
    fun h => liveSpec_err (hAdd s) h, fun h => liveSpec_err (hMul s) h,
    fun h => liveSpec_err (hF s) h⟩

/-- Witness for C2: on the token stream holding the single UNKNOWN token
"x", every level of the cascade raises the unexpected-token error and
returns with the (empty) live heap it started from. -/
theorem cascade_error_teardown_witness :
    (assignmentExpression 64 (initState [⟨.UNKNOWN, "x", 1, 1⟩])).2.live = 0 ∧
    (logicalOrExpression 64 (initState [⟨.UNKNOWN, "x", 1, 1⟩])).2.live = 0 ∧
    (logicalXorExpression 64 (initState [⟨.UNKNOWN, "x", 1, 1⟩])).2.live = 0 ∧
    (logicalAndExpression 64 (initState [⟨.UNKNOWN, "x", 1, 1⟩])).2.live = 0 ∧
    (equalityExpression 64 (initState [⟨.UNKNOWN, "x", 1, 1⟩])).2.live = 0 ∧
    (relationalExpression 64 (initState [⟨.UNKNOWN, "x", 1, 1⟩])).2.live = 0 ∧
    (additiveExpression 64 (initState [⟨.UNKNOWN, "x", 1, 1⟩])).2.live = 0 ∧
    (multiplicativeExpression 64 (initState [⟨.UNKNOWN, "x", 1, 1⟩])).2.live = 0 ∧
    (factor 64 (initState [⟨.UNKNOWN, "x", 1, 1⟩])).2.live = 0 :=
  ⟨(cascade_error_teardown 64 (initState [⟨.UNKNOWN, "x", 1, 1⟩]) 1 1 "x").1
      (by decide),
    (cascade_error_teardown 64 (initState [⟨.UNKNOWN, "x", 1, 1⟩]) 1 1 "x").2.1
      (by decide),
    (cascade_error_teardown 64 (initState [⟨.UNKNOWN, "x", 1, 1⟩]) 1 1 "x").2.2.1
      (by decide),
    (cascade_error_teardown 64 (initState [⟨.UNKNOWN, "x", 1, 1⟩]) 1 1 "x").2.2.2.1
      (by decide),
    (cascade_error_teardown 64 (initState [⟨.UNKNOWN, "x", 1, 1⟩]) 1 1 "x").2.2.2.2.1
      (by decide),
    (cascade_error_teardown 64 (initState [⟨.UNKNOWN, "x", 1, 1⟩]) 1 1 "x").2.2.2.2.2.1
      (by decide),
    (cascade_error_teardown 64 (initState [⟨.UNKNOWN, "x", 1, 1⟩]) 1 1 "x").2.2.2.2.2.2.1
      (by decide),
    (cascade_error_teardown 64 (initState [⟨.UNKNOWN, "x", 1, 1⟩]) 1 1 "x").2.2.2.2.2.2.2.1
      (by decide),
    (cascade_error_teardown 64 (initState [⟨.UNKNOWN, "x", 1, 1⟩]) 1 1 "x").2.2.2.2.2.2.2.2
      (by decide)⟩

/-- C1: on the input "1 2" — two expressions on one line with no operator
between them — parse raises the unexpected-token syntax error at the
second token (line 1, column 3, text "2") and tears down the previously
parsed statement roots (there are none), but the subtree just built for
the current statement is NOT torn down: the cleanup loop in the same-line
error branch iterates a variable that shadows it, so the NUMBER node
allocated for "1" is still live when the error propagates.  The final
state records one allocation and one still-live node, refuting the
claimed guarantee that no node allocated during the call remains live. -/
theorem parse_sameline_error_leaks_current_statement :
    parse 64 (initState (tokenize "1 2")) =
      (.err 1 3 "2", ⟨tokenize "1 2", 1, 0, 1, 1⟩) ∧
    (initState (tokenize "1 2")).live = 0 ∧
    (parse 64 (initState (tokenize "1 2"))).2.live = 1 := by
  decide

/-- C3 counterexample: tokenizing "1.2.3" does not produce a single
UNKNOWN token for the whole malformed literal, and the parser raises no
syntax error on the result.  The token stream has three tokens, the
second being NUMBER "3" (scanning resumed after the aborted literal), and
parse returns the empty statement list because its loop treats the
leading UNKNOWN token as end of input, so factor is never reached. -/
theorem malformed_number_single_token_cex :
    (tokenize "1.2.3").length = 3 ∧
    (tokenize "1.2.3").getD 1 ⟨.UNKNOWN, "END", 0, 0⟩ = ⟨.NUMBER, "3", 1, 5⟩ ∧
    (parse 64 (initState (tokenize "1.2.3"))).1 = .ok [] := by
  decide

/-- C3 as amended: tokenizing "1.2.3" makes number() abort at the second
dot, yielding an UNKNOWN token carrying the text "1.2." (the consumed
prefix including the offending dot), after which tokenize resumes and
produces NUMBER "3" followed by the END sentinel; because the UNKNOWN
token is the first of the stream, parse treats the stream as ended and
returns an empty statement list without raising a syntax error (factor
never consumes the token). -/
theorem malformed_number_tokenization :
    numberLoop ('1' :: '.' :: '2' :: '.' :: '3' :: []) 1 1 "" false 1 =
      (⟨.UNKNOWN, "1.2.", 1, 1⟩, ['3'], 1, 5) ∧
    tokenize "1.2.3" =
      [⟨.UNKNOWN, "1.2.", 1, 1⟩, ⟨.NUMBER, "3", 1, 5⟩, ⟨.UNKNOWN, "END", 1, 6⟩] ∧
    parse 64 (initState (tokenize "1.2.3")) =
      (.ok [], initState (tokenize "1.2.3")) := by
  decide

/-- C4: whenever the tokenize loop encounters a character that is not
whitespace, not a parenthesis, not a digit or dot, and not one of the four
operator characters, it returns immediately with the singleton list
holding an UNKNOWN token whose text is exactly that character: the token
is the last of the returned sequence, no character after the offending
one is consumed (the remaining input does not occur in the result), and
no END sentinel is appended. -/
theorem tokenize_failfast_unknown (fuel : Nat) (c : Char) (rest : List Char)
    (line col : Nat) (hws : isspaceChar c = false)
    (hlp : (c == '(') = false) (hrp : (c == ')') = false)
    (hdig : lexIsDigit c = false) (hop : lexIsOperator c = false) :
    tokenizeLoop (fuel + 1) (c :: rest) line col =
      [⟨.UNKNOWN, String.singleton c, line, col + 1⟩] := by
  have hnl : (c == '\n') = false := by
    cases h9 : c == '\n'
    · rfl
    · simp only [isspaceChar, h9, Bool.or_true, Bool.true_or] at hws
      exact hws
  simp [tokenizeLoop, hws, hlp, hrp, hdig, hop, consumeChar, hnl]

/-- Witness for C4 at the character commercial-at followed by more input:
the loop stops at once with the single-character UNKNOWN token. -/
theorem tokenize_failfast_unknown_witness :
    tokenizeLoop 1 ['@', '1'] 1 1 = [⟨.UNKNOWN, String.singleton '@', 1, 2⟩] :=
  tokenize_failfast_unknown 0 '@' ['1'] 1 1 (by decide) (by decide) (by decide)
    (by decide) (by decide)

/-- C10: the fail-fast UNKNOWN token emitted for an unrecognized character
records a column one greater than the column at which the offending
character appeared: the braced initializer consumes the character
(advancing the column counter) before reading line and column into the
token. -/
theorem tokenize_failfast_column (fuel : Nat) (c : Char) (rest : List Char)
    (line col : Nat) (hws : isspaceChar c = false)
    (hlp : (c == '(') = false) (hrp : (c == ')') = false)
    (hdig : lexIsDigit c = false) (hop : lexIsOperator c = false) :
    (tokenizeLoop (fuel + 1) (c :: rest) line col).map Token.column = [col + 1] := by
  have hnl : (c == '\n') = false := by
    cases h9 : c == '\n'
    · rfl
    · simp only [isspaceChar, h9, Bool.or_true, Bool.true_or] at hws
      exact hws
  simp [tokenizeLoop, hws, hlp, hrp, hdig, hop, consumeChar, hnl]

/-- Witness for C10 at the character number-sign encountered at line 5,
column 7: the emitted token records column 8. -/
theorem tokenize_failfast_column_witness :
    (tokenizeLoop 3 ['#'] 5 7).map Token.column = [8] :=
  tokenize_failfast_column 2 '#' [] 5 7 (by decide) (by decide) (by decide)
    (by decide) (by decide)

/-- C5: the additive level builds left-deep trees.  For any token
sequence operand-operator-operand-operator-operand whose operands are
NUMBER tokens and whose operators both belong to the additive level (the
operator table maps them to node kinds), the parse wraps the previously
built node as the left child of each new operator node; in particular
parsing "8 - 3 - 2" yields SUBTRACT(SUBTRACT(NUMBER 8, NUMBER 3), NUMBER 2). -/
theorem additive_left_associative :
    (∀ (t1 t2 t3 o1 o2 : Token) (nt1 nt2 : NodeType),
      t1.type = .NUMBER → t2.type = .NUMBER → t3.type = .NUMBER →
      additiveOps o1.type = some nt1 → additiveOps o2.type = some nt2 →
      (expression 64 (initState [t1, o1, t2, o2, t3, ⟨.UNKNOWN, "END", 1, 1⟩])).1 =
        .ok (mkBin nt2 (mkBin nt1 (mkNum t1.value) (mkNum t2.value))
          (mkNum t3.value))) ∧
    (parse 64 (initState (tokenize "8 - 3 - 2"))).1 =
      .ok [mkBin .SUBTRACT (mkBin .SUBTRACT (mkNum "8") (mkNum "3")) (mkNum "2")] := by
  constructor
  · intro t1 t2 t3 o1 o2 nt1 nt2 h1 h2 h3 h4 h5
    rcases t1 with ⟨tt1, v1, l1, c1⟩
    rcases t2 with ⟨tt2, v2, l2, c2⟩
    rcases t3 with ⟨tt3, v3, l3, c3⟩
    rcases o1 with ⟨ot1, w1, m1, d1⟩
    rcases o2 with ⟨ot2, w2, m2, d2⟩
    simp only [Token.type] at h1 h2 h3 h4 h5
    subst h1 h2 h3
    cases ot1 <;> simp only [additiveOps, Option.some.injEq, reduceCtorEq] at h4 <;>
      cases ot2 <;> simp only [additiveOps, Option.some.injEq, reduceCtorEq] at h5 <;>
      subst h4 <;> subst h5 <;> rfl
  · decide

/-- Witness for C5 at the token sequence of "1 - 2 - 3": the result is
the left-deep tree SUBTRACT(SUBTRACT(1, 2), 3). -/
theorem additive_left_associative_witness :
    (expression 64 (initState [⟨.NUMBER, "1", 1, 1⟩, ⟨.SUBTRACT, "-", 1, 3⟩,
        ⟨.NUMBER, "2", 1, 5⟩, ⟨.SUBTRACT, "-", 1, 7⟩, ⟨.NUMBER, "3", 1, 9⟩,
        ⟨.UNKNOWN, "END", 1, 1⟩])).1 =
      .ok (mkBin .SUBTRACT (mkBin .SUBTRACT (mkNum "1") (mkNum "2")) (mkNum "3")) :=
  additive_left_associative.1 ⟨.NUMBER, "1", 1, 1⟩ ⟨.NUMBER, "2", 1, 5⟩
    ⟨.NUMBER, "3", 1, 9⟩ ⟨.SUBTRACT, "-", 1, 3⟩ ⟨.SUBTRACT, "-", 1, 7⟩
    .SUBTRACT .SUBTRACT rfl rfl rfl rfl rfl

/-- C6: assignment is right-associative: on the token sequence
IDENTIFIER a, ASSIGN, IDENTIFIER b, ASSIGN, NUMBER 5 (the tokens of
"a = b = 5"), parsing yields ASSIGN(IDENTIFIER a, ASSIGN(IDENTIFIER b,
NUMBER 5)), because the assignment level recurses into itself for the
right-hand side before wrapping. -/
theorem assignment_right_associative :
    (parse 64 (initState [⟨.IDENTIFIER, "a", 1, 1⟩, ⟨.ASSIGN, "=", 1, 3⟩,
        ⟨.IDENTIFIER, "b", 1, 5⟩, ⟨.ASSIGN, "=", 1, 7⟩, ⟨.NUMBER, "5", 1, 9⟩,
        ⟨.UNKNOWN, "END", 1, 10⟩])).1 =
      .ok [mkBin .ASSIGN (mkIdent "a") (mkBin .ASSIGN (mkIdent "b") (mkNum "5"))] := by
  decide

/-- C7: multiplicative operators bind tighter than additive ones: parsing
the tokens of "1 + 2 * 3" yields ADD(NUMBER 1, MULTIPLY(NUMBER 2,
NUMBER 3)), because the additive level obtains each operand from the
multiplicative level. -/
theorem multiplicative_binds_tighter :
    (parse 64 (initState (tokenize "1 + 2 * 3"))).1 =
      .ok [mkBin .ADD (mkNum "1") (mkBin .MULTIPLY (mkNum "2") (mkNum "3"))] := by
  decide

/-- C8: on the token sequence of "5 = 3" (NUMBER to the left of ASSIGN),
assignmentExpression raises a syntax error carrying the line, column and
text of the ASSIGN token (line 1, column 3, "="), with the provisional
left subtree torn down (live heap back to 0) and the ASSIGN node never
allocated: the only allocation ever performed is the NUMBER leaf for "5",
as the final allocation count 1 shows; the cursor still sits on the
ASSIGN token, which was not consumed. -/
theorem assignment_to_literal_error :
    expression 64 (initState [⟨.NUMBER, "5", 1, 1⟩, ⟨.ASSIGN, "=", 1, 3⟩,
        ⟨.NUMBER, "3", 1, 5⟩, ⟨.UNKNOWN, "END", 1, 6⟩]) =
      (.err 1 3 "=",
        ⟨[⟨.NUMBER, "5", 1, 1⟩, ⟨.ASSIGN, "=", 1, 3⟩, ⟨.NUMBER, "3", 1, 5⟩,
          ⟨.UNKNOWN, "END", 1, 6⟩], 1, 0, 0, 1⟩) := by
  decide

/-- C9: on the input "(1 + 2", factor consumes the parenthesis and the
subexpression, finds the END sentinel instead of a closing parenthesis,
and raises a syntax error carrying the position of that offending token —
line 1 column 7, the position of the end-of-input sentinel, not of the
opening parenthesis — with the already-built subexpression torn down: the
final live heap is 0 (three nodes had been allocated), so no tree is
leaked or recoverable. -/
theorem unmatched_paren_error :
    expression 64 (initState (tokenize "(1 + 2")) =
      (.err 1 7 "END", ⟨tokenize "(1 + 2", 4, 1, 0, 3⟩) := by
  decide

end Scrypt
